import Mathlib

/-!
Verification of the AI-localization hook (`aiLocalizeCollection`).

Shallow embedding of `src/payload/hooks/aiLocalize.ts` (the richer variant,
`src/unnamed/part_001`): rich-text normalizer, locale scoring, source-locale
selection, missing-field detection, and the orchestrating after-change hook,
together with theorems settling the specification claims.

Modelling conventions:
* JavaScript strings are `String`; `undefined`/`null` collapse to a single
  absent value (the code only ever tests `== null` / `=== undefined` on them).
* Rich-text nodes (`RTNode`) model JS objects with optional `type`, `text`,
  `children` properties plus untouched extra attributes.  `text` is restricted
  to string-or-absent; `children` distinguishes an absent property from an
  empty array, as the source does (`Array.isArray` vs truthiness checks).
* Machine evaluation order, JS truthiness (`''` falsy) and first-match object
  key lookup are modelled explicitly where the source depends on them.
-/

namespace AiLocalize

/-- First-match association lookup, the shape of JS property access on the
locale-keyed objects used by the hook. -/
def alook (k : String) : List (String × α) → Option α
  | [] => none
  | (k', v) :: r => if k' = k then some v else alook k r

/-- JS string truthiness: the empty string is falsy. -/
def jsTruthy (s : String) : Bool := s ≠ ""

/-- JS `a || b` on strings. -/
def jsOr (a b : String) : String := if a = "" then b else a

/-- The whitespace characters stripped by `String.prototype.trim` that occur
in this code base (ASCII whitespace). -/
def jsWS (c : Char) : Bool :=
  c = ' ' || c = '\t' || c = '\n' || c = '\r' || c = '\x0b' || c = '\x0c'

/-- Model of `String.prototype.trim`: strip leading and trailing whitespace. -/
def jsTrim (s : String) : String :=
  ⟨((s.toList.dropWhile jsWS).reverse.dropWhile jsWS).reverse⟩

/-- Character-level model of `.replace(/\n{3,}/g, '\n\n')`: within every
maximal run of newlines, at most the first two are kept. `k` counts the
newlines already seen in the current run. -/
def collapseNLGo : List Char → Nat → List Char
  | [], _ => []
  | c :: cs, k =>
    if c = '\n' then
      if k < 2 then '\n' :: collapseNLGo cs (k + 1) else collapseNLGo cs (k + 1)
    else c :: collapseNLGo cs 0

/-- Model of `.replace(/\n{3,}/g, '\n\n')`: collapse each run of three or more
consecutive newlines to exactly two. -/
def collapseNewlines (s : String) : String := ⟨collapseNLGo s.toList 0⟩

/-- A rich-text node: a JS object with optional `type`, `text` and `children`
properties; `extra` stands for all remaining (non-text) attributes, which the
engine never touches. -/
inductive RTNode : Type where
  | node (ty : Option String) (text : Option String)
      (children : Option (List RTNode)) (extra : List (String × String)) : RTNode

mutual
/-- The `collect` helper inside `slateToPlain`: a node's own string text wins, else the
concatenation of its children's texts, else the empty string. -/
def slateCollect : RTNode → String
  | .node _ (some t) _ _ => t
  | .node _ none (some ch) _ => slateCollectL ch
  | .node _ none none _ => ""

/-- Model of `children.map(collect).join('')`. -/
def slateCollectL : List RTNode → String
  | [] => ""
  | n :: ns => slateCollect n ++ slateCollectL ns
end

mutual
/-- The `walk` helper inside `lexicalToPlain`: a `text`-typed node with string text
contributes its text; otherwise a node with a `children` array recurses;
otherwise a `linebreak` node contributes a newline; otherwise nothing.
The order of the three tests is exactly the source's. -/
def lexWalk : RTNode → String
  | .node (some "text") (some t) _ _ => t
  | .node _ _ (some ch) _ => lexWalkL ch
  | .node ty _ none _ => if ty = some "linebreak" then "\n" else ""

/-- Model of `nodes.map(...).join('')`. -/
def lexWalkL : List RTNode → String
  | [] => ""
  | n :: ns => lexWalk n ++ lexWalkL ns
end

/-- The match predicate of `findTextNodes` in `translateLexicalContent`:
nodes whose `type` is `'text'`. -/
def lexMatch : RTNode → Bool
  | .node ty _ _ _ => ty = some "text"

/-- The match predicate of `findTextNodes` in `translateSlateContent`:
nodes carrying a `text` property (`node.text !== undefined`). -/
def slateMatch : RTNode → Bool
  | .node _ text _ _ => text.isSome

mutual
/-- One preorder pass equivalent to `findTextNodes` followed by the in-place
text rewrite: the first matched node's text becomes `s`, every later matched
node's text becomes `''`.  `seen` records whether a matched node has already
been encountered; the returned flag propagates it.  The recursion descends
into `children` whenever the property is present, exactly as
`if (node.children) findTextNodes(node.children)` does. -/
def rtReplace (m : RTNode → Bool) (s : String) : RTNode → Bool → RTNode × Bool
  | n@(.node ty text ch extra), seen =>
    let hit := m n
    let text' := if hit then some (if seen then "" else s) else text
    let seen' := seen || hit
    match ch with
    | none => (.node ty text' none extra, seen')
    | some cs =>
      let (cs', seen'') := rtReplaceL m s cs seen'
      (.node ty text' (some cs') extra, seen'')

/-- List version of `rtReplace`, threading the `seen` flag left to right. -/
def rtReplaceL (m : RTNode → Bool) (s : String) :
    List RTNode → Bool → List RTNode × Bool
  | [], seen => ([], seen)
  | n :: ns, seen =>
    let (n', s1) := rtReplace m s n seen
    let (ns', s2) := rtReplaceL m s ns s1
    (n' :: ns', s2)
end

mutual
/-- The `text` attributes of the nodes `findTextNodes` collects, in the
collection (preorder) order. -/
def rtTexts (m : RTNode → Bool) : RTNode → List (Option String)
  | n@(.node _ text ch _) =>
    (if m n then [text] else []) ++
      (match ch with
       | some cs => rtTextsL m cs
       | none => [])

/-- List version of `rtTexts`. -/
def rtTextsL (m : RTNode → Bool) : List RTNode → List (Option String)
  | [] => []
  | n :: ns => rtTexts m n ++ rtTextsL m ns
end

mutual
/-- Erase every `text` attribute: the result captures node count, nesting,
`type` and all non-text attributes of a tree. -/
def rtErase : RTNode → RTNode
  | .node ty _ ch extra =>
    .node ty none
      (match ch with
       | some cs => some (rtEraseL cs)
       | none => none) extra

/-- List version of `rtErase`. -/
def rtEraseL : List RTNode → List RTNode
  | [] => []
  | n :: ns => rtErase n :: rtEraseL ns
end

mutual
/-- Number of nodes in a tree. -/
def rtCount : RTNode → Nat
  | .node _ _ ch _ =>
    1 + (match ch with
         | some cs => rtCountL cs
         | none => 0)

/-- Number of nodes in a forest. -/
def rtCountL : List RTNode → Nat
  | [] => 0
  | n :: ns => rtCount n + rtCountL ns
end

/-- A field value as the hook distinguishes them: a string, an array of node
objects, an object with a `root` property (the Lexical shape), an absent
value (`null`/`undefined`), or any other non-string primitive/object. -/
inductive FieldVal : Type where
  | vstr (s : String) : FieldVal
  | varr (ns : List RTNode) : FieldVal
  | vlex (root : RTNode) : FieldVal
  | vnull : FieldVal
  | vother : FieldVal

/-- Model of `looksLikeSlate`: an array whose every element is an object with a truthy
`type`.  (Array elements are node objects in this model; JS arrays holding
non-objects are represented by nodes with no `type`, which fail the same
check.) -/
def looksLikeSlate : FieldVal → Bool
  | .varr ns => ns.all fun n =>
      match n with
      | .node (some t) _ _ _ => t ≠ ""
      | .node none _ _ _ => false
  | _ => false

/-- Model of `looksLikeLexical`: an object with a `root` property whose `type` is
`'root'`. -/
def looksLikeLexical : FieldVal → Bool
  | .vlex (.node ty _ _ _) => ty = some "root"
  | _ => false

/-- Model of `slateToPlain`: map `collect` over the top-level array, join with a single
newline, collapse newline runs, trim.  Non-arrays flatten to `''`. -/
def slateToPlain : FieldVal → String
  | .varr ns => jsTrim (collapseNewlines (joinNL (ns.map slateCollect)))
  | _ => ""
where
  /-- `.join('\n')`. -/
  joinNL : List String → String
    | [] => ""
    | [s] => s
    | s :: ss => s ++ "\n" ++ joinNL ss

/-- Model of `lexicalToPlain`: walk the root's children, collapse newline runs, trim.
A value without `root.children` flattens to `''`. -/
def lexicalToPlain : FieldVal → String
  | .vlex (.node _ _ (some ch) _) => jsTrim (collapseNewlines (lexWalkL ch))
  | _ => ""

/-- Model of `translateLexicalContent`: deep-copy the source, give the first
`type:'text'` node the whole translated string and blank the rest.  A source
without a `root` is returned unchanged. -/
def translateLexicalContent (source : FieldVal) (translatedText : String) : FieldVal :=
  match source with
  | .vlex (.node ty text (some cs) extra) =>
    .vlex (.node ty text (some (rtReplaceL lexMatch translatedText cs false).1) extra)
  | .vlex r => .vlex r
  | v => v

/-- Model of `translateSlateContent`: deep-copy the source array, give the first
text-bearing node the whole translated string and blank the rest.  A
non-array source is returned unchanged. -/
def translateSlateContent (source : FieldVal) (translatedText : String) : FieldVal :=
  match source with
  | .varr ns => .varr (rtReplaceL slateMatch translatedText ns false).1
  | v => v

/-! ## Documents, configuration and scoring -/

/-- A raw document field as stored on a record, before locale indexing.
`dmap` is a plain object keyed by locale (the all-locales view); `dstr`,
`darr`, `dlex` are locale-scoped values; `dbool` models checkbox fields such
as the guard flag; `dnull`/`dother` are absent and other primitive values.
In JS, `typeof v === 'object'` holds for `dmap`, `darr` and `dlex`, and
indexing an array or a `{root: …}` object by a locale code yields
`undefined`. -/
inductive DocField : Type where
  | dstr (s : String) : DocField
  | darr (ns : List RTNode) : DocField
  | dlex (root : RTNode) : DocField
  | dmap (m : List (String × FieldVal)) : DocField
  | dbool (b : Bool) : DocField
  | dnull : DocField
  | dother : DocField

/-- A record, flattened to dotted field paths.  The engine's localized leaf
fields are never nested inside one another, so path-indexed access
(`getByPath`) is modelled as flat association lookup. -/
structure HookDoc : Type where
  id : String
  fields : List (String × DocField)

/-- Model of `getByPath(doc, path)`; a missing path reads as `undefined`. -/
def getByPath (d : HookDoc) (path : String) : DocField :=
  (alook path d.fields).getD .dnull

/-- Model of `typeof v === 'object' && v !== null ? v[locale] : v` — the locale
indexing used by `contentScore` and by the source-value extraction. -/
def localeVal : DocField → String → FieldVal
  | .dmap m, l => (alook l m).getD .vnull
  | .darr _, _ => .vnull
  | .dlex _, _ => .vnull
  | .dstr s, _ => .vstr s
  | .dbool _, _ => .vother
  | .dnull, _ => .vnull
  | .dother, _ => .vother

/-- Model of `typeof v === 'object' && v !== null ? v[locale] : undefined` — the
locale indexing used by the missing-field loop. -/
def missingLocaleVal : DocField → String → FieldVal
  | .dmap m, l => (alook l m).getD .vnull
  | _, _ => .vnull

/-- The declared type of a localized field (`FieldMeta`). -/
inductive FieldKind : Type where
  | text : FieldKind
  | textarea : FieldKind
  | richText : FieldKind
deriving DecidableEq

/-- The collection as the hook sees it: its slug and the localized content
fields discovered by `detectLocalizedFieldsWithMeta` (path and type, in
schema order). -/
structure Collection : Type where
  slug : String
  localizedFields : List (String × FieldKind)

/-- Model of `payload.config.localization`: the framework default locale (already
reduced from string-or-`{code}` form) and the configured locale codes. -/
structure LocalizationCfg : Type where
  defaultLocale : String
  locales : List String

/-- The `LocalizeConfig` options object. -/
structure LocalizeConfig : Type where
  fields : Option (List String) := none
  sourceLocale : Option String := none
  targetLocales : Option (List String) := none
  guardFlagField : Option String := none
  dryRun : Bool := false
  skipIfSlateTarget : Option Bool := none

/-- Model of `contentScore(docAllLocales, fields, locale, meta)`: one point for every
field whose value in `locale` is a non-blank string, a Slate value with
non-empty flattened text, or a Lexical value with non-empty flattened text.
(The `meta` parameter is passed by the source but unused, and is omitted
here.) -/
def contentScore (docAll : HookDoc) (fields : List String) (locale : String) : Nat :=
  fields.foldl
    (fun score f =>
      let val := localeVal (getByPath docAll f) locale
      match val with
      | .vstr s => if jsTrim s ≠ "" then score + 1 else score
      | v =>
        if looksLikeSlate v ∧ (slateToPlain v).length > 0 then score + 1
        else if looksLikeLexical v ∧ (lexicalToPlain v).length > 0 then score + 1
        else score)
    0

/-- Model of `Object.entries(scores).sort((a, b) => b[1] - a[1])[0]?.[0]`: JS `sort`
is stable, so this is the first locale attaining the maximal score. -/
def bestLocale (scoreOf : String → Nat) : List String → Option String
  | [] => none
  | l :: ls => some (ls.foldl (fun b x => if scoreOf x > scoreOf b then x else b) l)

/-- The `actualSourceLocale` selection expression.  `scoreOf` models the
`scores` object (lookups outside the configured locales read as 0, matching
`undefined > 0 === false`); `defL` is the hook's `defaultLocale` variable. -/
def actualSourceLocale (cfgSrc : Option String) (defL : String)
    (scoreOf : String → Nat) (locales : List String) : String :=
  let best := bestLocale scoreOf locales
  let auto :=
    match best with
    | some b => if scoreOf b > 0 then b else defL
    | none => defL
  match cfgSrc with
  | some s =>
    if s ≠ "" then
      if scoreOf s > 0 then s
      else
        match best with
        | some b => if b ≠ "" then b else defL
        | none => defL
    else auto
  | none => auto

/-! ## Missing-field detection and source values -/

/-- The per-value emptiness computation of the missing-field loop, given the
field's declared kind (`none` when the path has no metadata, which takes the
non-richText branch like the source's `fieldMeta.get(f)?.type`). -/
def fieldEmptyVal (kind : Option FieldKind) (val : FieldVal) : Bool :=
  match kind with
  | some .richText =>
    match val with
    | .vnull => true
    | v =>
      if looksLikeSlate v then jsTrim (slateToPlain v) = ""
      else if looksLikeLexical v then jsTrim (lexicalToPlain v) = ""
      else
        match v with
        | .varr ns => ns.isEmpty
        | .vstr s => jsTrim s = ""
        | _ => true
  | _ =>
    match val with
    | .vnull => true
    | .vstr s => jsTrim s = ""
    | .varr ns => ns.isEmpty
    | _ => false

/-- Whether field `f` is empty for `locale` in the all-locales view. -/
def fieldEmptyAt (docAll : HookDoc) (meta : List (String × FieldKind))
    (f : String) (locale : String) : Bool :=
  fieldEmptyVal (alook f meta) (missingLocaleVal (getByPath docAll f) locale)

/-- The `fieldsMissing` list for one target locale, in field order. -/
def missingFields (docAll : HookDoc) (fields : List String)
    (meta : List (String × FieldKind)) (locale : String) : List String :=
  fields.filter fun f => fieldEmptyAt docAll meta f locale

/-- A retained source rich-text structure (`sourceRichTextStructures[f]`). -/
inductive SrcStruct : Type where
  | slate (v : FieldVal) : SrcStruct
  | lex (v : FieldVal) : SrcStruct

/-- The flattened source value and the retained structure for one field
(lines 334–351 of the hook). -/
def sourceEntry (docAll : HookDoc) (meta : List (String × FieldKind))
    (src : String) (f : String) : String × Option SrcStruct :=
  let val := localeVal (getByPath docAll f) src
  let asStr : FieldVal → String := fun v =>
    match v with
    | .vstr s => s
    | _ => ""
  match alook f meta with
  | some .richText =>
    if looksLikeSlate val then (slateToPlain val, some (.slate val))
    else if looksLikeLexical val then (lexicalToPlain val, some (.lex val))
    else (asStr val, none)
  | _ => (asStr val, none)

/-! ## LLM results and patch construction -/

/-- A value in the parsed LLM JSON result: a string, a number, or JSON
`null`.  (Other JSON types behave like `rint` — a non-empty `toString`
coercion — and are not needed by the claims.) -/
inductive ResVal : Type where
  | rstr (s : String) : ResVal
  | rint (n : Int) : ResVal
  | rnull : ResVal

/-- Model of `(result?.[f] ?? '').toString()`: a missing key or JSON `null` reads as
`''`; a string passes through; a number is coerced to its decimal string. -/
def resToString : Option ResVal → String
  | none => ""
  | some .rnull => ""
  | some (.rstr s) => s
  | some (.rint n) => toString n

/-- The value patched for one missing field (lines 401–423): rich text with a
retained source structure is reinjected, everything else is the proposed
string. -/
def patchValue (meta : List (String × FieldKind)) (structs : List (String × SrcStruct))
    (result : List (String × ResVal)) (f : String) : FieldVal :=
  let proposed := resToString (alook f result)
  match alook f meta with
  | some .richText =>
    match alook f structs with
    | some (.lex v) => translateLexicalContent v proposed
    | some (.slate v) => translateSlateContent v proposed
    | none => .vstr proposed
  | _ => .vstr proposed

/-- Model of `setByPath` on the patch object, specialised to the flat leaf paths the
schema walker produces (no localized field path is nested inside another):
overwrite an existing key, otherwise append, preserving key insertion
order. -/
def setByPathFlat (patch : List (String × FieldVal)) (p : String) (v : FieldVal) :
    List (String × FieldVal) :=
  if (alook p patch).isSome then
    patch.map fun kv => if kv.1 = p then (p, v) else kv
  else patch ++ [(p, v)]

/-- The nested patch object built for one target locale. -/
def buildPatch (meta : List (String × FieldKind)) (structs : List (String × SrcStruct))
    (result : List (String × ResVal)) (fieldsMissing : List String) :
    List (String × FieldVal) :=
  fieldsMissing.foldl (fun patch f => setByPathFlat patch f (patchValue meta structs result f)) []

/-! ## The hook -/

/-- The guard marker header name. -/
def HEADER_GUARD : String := "x-ai-localize"

/-- Externally observable actions of one hook invocation, in order. -/
inductive Effect : Type where
  | findByID (collection : String) (id : String) : Effect
  | llmCall (targetLocale : String) : Effect
  | update (collection : String) (id : String) (locale : String)
      (patch : List (String × FieldVal)) (guarded : Bool) : Effect
  | dryLog (locale : String) (patch : List (String × FieldVal)) : Effect
  | errLog (locale : String) : Effect

/-- One invocation's environment: the change event (headers, document,
collection), the framework configuration, and oracles for the two fallible
external collaborators.  `store` is the all-locales view `findByID` returns;
`llm locale` is the parsed JSON result (or failure) of the chat-completion
call for that target locale — within one invocation the prompt is a function
of the locale, so keying the oracle by locale loses nothing; `updateOutcome
locale` is the result of the write-back for that locale. -/
structure HookEnv : Type where
  headers : List (String × String)
  localization : Option LocalizationCfg
  collection : Collection
  doc : HookDoc
  store : HookDoc
  llm : String → Except String (List (String × ResVal))
  updateOutcome : String → Except String Unit

/-- Paths of the detected localized fields, in schema order. -/
def hookFieldList (env : HookEnv) : List String :=
  env.collection.localizedFields.map Prod.fst

/-- The detected field metadata map. -/
def hookMeta (env : HookEnv) : List (String × FieldKind) :=
  env.collection.localizedFields

/-- The localization config actually in scope (junk defaults when
localization is disabled; every consumer is guarded by the hook's early
return in that case). -/
def hookLz (env : HookEnv) : LocalizationCfg :=
  env.localization.getD ⟨"", []⟩

/-- The hook's `defaultLocale` variable:
`config.sourceLocale || localesCfg.defaultLocale || 'en'`. -/
def hookDefaultLocale (cfg : LocalizeConfig) (env : HookEnv) : String :=
  jsOr (cfg.sourceLocale.getD "") (jsOr (hookLz env).defaultLocale "en")

/-- The `requestedTargets` list: the configured target list when non-empty, else all
configured locales. -/
def hookRequested (cfg : LocalizeConfig) (env : HookEnv) : List String :=
  match cfg.targetLocales with
  | some ts => if ts ≠ [] then ts else (hookLz env).locales
  | none => (hookLz env).locales

/-- Model of `config.guardFlagField && doc?.[g] === false`. -/
def gateClosed (cfg : LocalizeConfig) (doc : HookDoc) : Bool :=
  match cfg.guardFlagField with
  | some g => g ≠ "" && (match alook g doc.fields with
      | some (.dbool false) => true
      | _ => false)
  | none => false

/-- The `localizedView` test: the first detected field's raw value is a plain string,
an array, or a Lexical object — i.e. the incoming document is locale-scoped
and the all-locales view must be re-fetched. -/
def hookLocalizedView (env : HookEnv) : Bool :=
  match hookFieldList env with
  | [] => false
  | f :: _ =>
    match getByPath env.doc f with
    | .dstr _ => true
    | .darr _ => true
    | .dlex (.node ty _ _ _) => ty = some "root"
    | _ => false

/-- The `docAllLocales` record: the re-fetched all-locales record when the incoming one
is locale-scoped, else the incoming record. -/
def hookDocAll (env : HookEnv) : HookDoc :=
  if hookLocalizedView env then env.store else env.doc

/-- The `scores` object: a locale-keyed entry list over the configured
locales. -/
def hookScoresList (env : HookEnv) : List (String × Nat) :=
  (hookLz env).locales.map fun l => (l, contentScore (hookDocAll env) (hookFieldList env) l)

/-- Reading `scores[l]`; a key outside the configured locales reads as
`undefined`, which compares to `0` under every `> 0` test the hook makes. -/
def hookScoreOf (env : HookEnv) (l : String) : Nat :=
  (alook l (hookScoresList env)).getD 0

/-- The resolved source locale of one invocation. -/
def hookSource (cfg : LocalizeConfig) (env : HookEnv) : String :=
  actualSourceLocale cfg.sourceLocale (hookDefaultLocale cfg env)
    (hookScoreOf env) (hookLz env).locales

/-- The flattened source values, keyed by field path. -/
def hookSourceValues (cfg : LocalizeConfig) (env : HookEnv) : List (String × String) :=
  (hookFieldList env).map fun f =>
    (f, (sourceEntry (hookDocAll env) (hookMeta env) (hookSource cfg env) f).1)

/-- The retained source rich-text structures, keyed by field path. -/
def hookStructs (cfg : LocalizeConfig) (env : HookEnv) : List (String × SrcStruct) :=
  (hookFieldList env).filterMap fun f =>
    match (sourceEntry (hookDocAll env) (hookMeta env) (hookSource cfg env) f).2 with
    | some st => some (f, st)
    | none => none

/-- The `targets` list: the requested targets minus the resolved source locale. -/
def hookTargets (cfg : LocalizeConfig) (env : HookEnv) : List String :=
  (hookRequested cfg env).filter (· ≠ hookSource cfg env)

/-- The `toFill` list: the target locales that still miss fields, with their
missing-field lists. -/
def hookToFill (cfg : LocalizeConfig) (env : HookEnv) : List (String × List String) :=
  (hookTargets cfg env).filterMap fun l =>
    let miss := missingFields (hookDocAll env) (hookFieldList env) (hookMeta env) l
    if miss = [] then none else some (l, miss)

/-- One iteration of the fill loop, with the `try … catch` semantics: an LLM
failure or a write failure is caught (logged) and the loop moves on.  The
write request always carries the guard marker (`guarded := true`). -/
def processPair (cfg : LocalizeConfig) (env : HookEnv) (p : String × List String) :
    List Effect :=
  let locale := p.1
  match env.llm locale with
  | .error _ => [.llmCall locale, .errLog locale]
  | .ok result =>
    let patch := buildPatch (hookMeta env) (hookStructs cfg env) result p.2
    if patch.isEmpty then [.llmCall locale]
    else if cfg.dryRun then [.llmCall locale, .dryLog locale patch]
    else
      match env.updateOutcome locale with
      | .ok _ => [.llmCall locale,
          .update env.collection.slug env.doc.id locale patch true]
      | .error _ => [.llmCall locale,
          .update env.collection.slug env.doc.id locale patch true, .errLog locale]

/-- The whole hook body, returning the effect trace and the returned
document; a result of `.error` would mean an exception escaped to the host
framework's mutation pipeline. -/
def runHook (cfg : LocalizeConfig) (env : HookEnv) :
    Except String (List Effect × HookDoc) :=
  if alook HEADER_GUARD env.headers = some "1" then .ok ([], env.doc)
  else
    match env.localization with
    | none => .ok ([], env.doc)
    | some _ =>
      if hookFieldList env = [] then .ok ([], env.doc)
      else if gateClosed cfg env.doc then .ok ([], env.doc)
      else
        let eff0 : List Effect :=
          if hookLocalizedView env then [.findByID env.collection.slug env.doc.id] else []
        if ¬ (hookSourceValues cfg env).any (fun sv => jsTrim sv.2 ≠ "") then
          .ok (eff0, env.doc)
        else if hookToFill cfg env = [] then .ok (eff0, env.doc)
        else
          .ok (eff0 ++ (hookToFill cfg env).foldl
                (fun acc p => acc ++ processPair cfg env p) [], env.doc)

/-! ## Observation helpers and specification-side definitions -/

/-- Target locales of the LLM calls in a trace, in order. -/
def llmLocales (tr : List Effect) : List String :=
  tr.filterMap fun e =>
    match e with
    | .llmCall l => some l
    | _ => none

/-- Locales of the write-back requests in a trace, in order. -/
def updLocales (tr : List Effect) : List String :=
  tr.filterMap fun e =>
    match e with
    | .update _ _ l _ _ => some l
    | _ => none

/-- Record-store reads in a trace. -/
def findEffects (tr : List Effect) : List Effect :=
  tr.filter fun e =>
    match e with
    | .findByID _ _ => true
    | _ => false

/-- Spec-side description of the reinjection text policy: the first collected
text node carries the whole translated string, every later one is blanked. -/
def assignFirstRest (s : String) : List (Option String) → List (Option String)
  | [] => []
  | _ :: rest => some s :: rest.map fun _ => some ""

/-- Generalisation of `assignFirstRest` threading the already-seen flag, used
to state the loop invariant of the reinjection pass. -/
def assignFrom (seen : Bool) (s : String) : List (Option String) → List (Option String)
  | [] => []
  | _ :: rest => (if seen then some "" else some s) :: assignFrom true s rest

/-- Text erasure lifted to field values: what remains is exactly the node
count, nesting and non-text attributes. -/
def fvErase : FieldVal → FieldVal
  | .varr ns => .varr (rtEraseL ns)
  | .vlex r => .vlex (rtErase r)
  | v => v

/-- Node count lifted to field values. -/
def fvCount : FieldVal → Nat
  | .varr ns => rtCountL ns
  | .vlex r => rtCount r
  | _ => 0

/-- The `text` attributes of the nodes `translateSlateContent` collects, in
document (preorder) order. -/
def slateTexts : FieldVal → List (Option String)
  | .varr ns => rtTextsL slateMatch ns
  | _ => []

/-- The `text` attributes of the nodes `translateLexicalContent` collects
(the walk starts at the root's children), in document order. -/
def lexTexts : FieldVal → List (Option String)
  | .vlex (.node _ _ (some ch) _) => rtTextsL lexMatch ch
  | _ => []

/-- Specification-side rendering of the rooted-tree walk, written from the
claim's clauses (a text node contributes its string text; otherwise a node
with a children array recurses; otherwise a line-break node contributes one
newline; siblings concatenate with no separator) in accumulator style. -/
def lexSpecGo : List RTNode → String → String
  | [], acc => acc
  | .node ty text ch _ :: ns, acc =>
    if ty = some "text" ∧ text.isSome then
      lexSpecGo ns (acc ++ text.getD "")
    else
      match ch with
      | some cs => lexSpecGo ns (acc ++ lexSpecGo cs "")
      | none => lexSpecGo ns (acc ++ if ty = some "linebreak" then "\n" else "")

/-- Specification-side `RootedTree → text` flattening per the claim: walk the
root's children, collapse newline runs of three or more to exactly two, trim;
anything without a root (or without a children list) flattens to `''`. -/
def lexicalToPlainSpec : FieldVal → String
  | .vlex (.node _ _ (some ch) _) => jsTrim (collapseNewlines (lexSpecGo ch ""))
  | _ => ""

/-- The claim's missing-ness characterisation for a rich-text value, as
written: absent; or a recognized structured document with blank flattened
text; or an empty array; or a blank string; or any other non-string,
non-recognized value. -/
def claimC5RichEmpty (val : FieldVal) : Bool :=
  let recognized := looksLikeSlate val || looksLikeLexical val
  let flat := if looksLikeSlate val then slateToPlain val else lexicalToPlain val
  let isStr := match val with | .vstr _ => true | _ => false
  let isEmptyArr := match val with | .varr ns => ns.isEmpty | _ => false
  let isBlankStr := match val with | .vstr s => jsTrim s = "" | _ => false
  (match val with | .vnull => true | _ => false) ||
    (recognized && jsTrim flat = "") || isEmptyArr || isBlankStr ||
    (!isStr && !recognized)

/-- The claim's missing-ness characterisation for a plain/multiline text
value, as written: absent, or a blank string. -/
def claimC5PlainEmpty (val : FieldVal) : Bool :=
  match val with
  | .vnull => true
  | .vstr s => jsTrim s = ""
  | _ => false

/-- The amended missing-ness characterisation that the code actually
implements.  Differences from the claim: a plain-text value that is an empty
array is also missing; a rich-text value that is a non-recognized, non-empty
array is NOT missing (only non-string, non-array unrecognized values are
conservatively treated as empty). -/
def amendedEmpty (kind : Option FieldKind) (val : FieldVal) : Bool :=
  let recognized := looksLikeSlate val || looksLikeLexical val
  let flat := if looksLikeSlate val then slateToPlain val else lexicalToPlain val
  match kind with
  | some .richText =>
    (match val with | .vnull => true | _ => false) ||
      (recognized && jsTrim flat = "") ||
      (match val with | .vstr s => jsTrim s = "" | _ => false) ||
      (!(match val with | .vstr _ => true | _ => false) &&
       !(match val with | .varr _ => true | _ => false) && !recognized)
  | _ =>
    (match val with | .vnull => true | _ => false) ||
      (match val with | .vstr s => jsTrim s = "" | _ => false) ||
      (match val with | .varr ns => ns.isEmpty | _ => false)

/-- The claim's source-locale selection contract, as written: a configured
source locale with positive score wins; otherwise the first-occurring
highest-score locale; and whenever the best score is 0, the framework's
configured default locale is selected. -/
def claimC3Holds (cfgSrc : Option String) (frameworkDefault : String)
    (locales : List String) (scoreOf : String → Nat) (sel : String) : Prop :=
  (∀ s, cfgSrc = some s → scoreOf s > 0 → sel = s) ∧
  (∀ b, bestLocale scoreOf locales = some b → scoreOf b > 0 →
    (∀ s, cfgSrc = some s → scoreOf s = 0) → sel = b) ∧
  ((∀ l ∈ locales, scoreOf l = 0) → sel = frameworkDefault)

/-! ## Concrete instances used by the claim theorems and witnesses -/

/-- A concrete recognized Slate document and a concrete recognized Lexical
document, used as witness inputs. -/
def slateDocW : FieldVal :=
  .varr [.node (some "paragraph") none
    (some [.node none (some "Hello ") none [("bold", "true")],
           .node none (some "world") none []]) [("align", "left")]]

/-- Witness Lexical document. -/
def lexDocW : FieldVal :=
  .vlex (.node (some "root") none
    (some [.node (some "paragraph") none
      (some [.node (some "text") (some "Hello") none [("format", "0")],
             .node (some "linebreak") none none [],
             .node (some "text") (some "world") none []]) []]) [])

/-- A non-recognized, non-empty array: `[{text: "x"}]` — its single element
has no `type`, so `looksLikeSlate` rejects it, and it is not empty. -/
def c5CounterVal : FieldVal := .varr [.node none (some "x") none []]

/-- The record, environment and options of the C3 counterexample: an
explicitly configured source locale `'en'`, configured locales
`['de', 'en']`, framework default `'en'`, and a record with no content in
any locale (every score is 0). -/
def docC3 : HookDoc := ⟨"r1", [("title", .dmap [("de", .vstr ""), ("en", .vstr "")])]⟩

/-- C3 counterexample environment. -/
def envC3 : HookEnv :=
  { headers := []
    localization := some ⟨"en", ["de", "en"]⟩
    collection := ⟨"articles", [("title", .text)]⟩
    doc := docC3
    store := docC3
    llm := fun _ => .ok []
    updateOutcome := fun _ => .ok () }

/-- C3 counterexample options. -/
def cfgC3 : LocalizeConfig := { sourceLocale := some "en" }

/-- Field metadata of the C10 counterexample: one plain-text field. -/
def metaC10 : List (String × FieldKind) := [("title", .text)]

/-- C1 witness environment: a guarded change event on an otherwise fully
populated environment. -/
def envC1 : HookEnv :=
  { headers := [("x-ai-localize", "1")]
    localization := some ⟨"en", ["en", "de"]⟩
    collection := ⟨"articles", [("title", .text)]⟩
    doc := ⟨"r9", [("title", .dstr "Hello")]⟩
    store := ⟨"r9", [("title", .dmap [("en", .vstr "Hello")])]⟩
    llm := fun _ => .ok [("title", .rstr "Hallo")]
    updateOutcome := fun _ => .ok () }

/-- C2 counterexample record: `en` populated, `de` holding an EMPTY ARRAY —
a value that is non-empty under the claim's paragraph-4.4 plain-text rule
(it is neither absent nor a blank string) but missing under the implemented
rule (the plain-text branch also tests `Array.isArray(val) && val.length ===
0`). -/
def docC2x : HookDoc :=
  ⟨"r3", [("title", .dmap [("en", .vstr "Hello"), ("de", .varr [])])]⟩

/-- C2 counterexample environment. -/
def envC2x : HookEnv :=
  { headers := []
    localization := some ⟨"en", ["en", "de"]⟩
    collection := ⟨"articles", [("title", .text)]⟩
    doc := docC2x
    store := docC2x
    llm := fun _ => .ok [("title", .rstr "Hallo")]
    updateOutcome := fun _ => .ok () }

/-- C2 witness record: both locales fully populated. -/
def docC2 : HookDoc :=
  ⟨"r2", [("title", .dmap [("en", .vstr "Hello"), ("de", .vstr "Hallo")])]⟩

/-- C2 witness environment. -/
def envC2 : HookEnv :=
  { headers := []
    localization := some ⟨"en", ["en", "de"]⟩
    collection := ⟨"articles", [("title", .text)]⟩
    doc := docC2
    store := docC2
    llm := fun _ => .ok []
    updateOutcome := fun _ => .ok () }

/-- The locales the hook will send to the LLM, replicating the early-return
cascade: empty unless the loop is reached, then the `toFill` locales. -/
def hookLlmPlan (cfg : LocalizeConfig) (env : HookEnv) : List String :=
  if alook HEADER_GUARD env.headers = some "1" then []
  else
    match env.localization with
    | none => []
    | some _ =>
      if hookFieldList env = [] then []
      else if gateClosed cfg env.doc then []
      else if ¬ (hookSourceValues cfg env).any (fun sv => jsTrim sv.2 ≠ "") then []
      else (hookToFill cfg env).map Prod.fst

/-- Source-locale Slate value of the C7 scenario, with text `"Hello"`. -/
def srcSlateC7 : FieldVal :=
  .varr [.node (some "p") none (some [.node none (some "Hello") none []]) []]

/-- The target locale's EXISTING rich-text value in the C7 scenario: it looks
like Slate (array of typed nodes) but flattens to blank text. -/
def frSlateC7 : FieldVal :=
  .varr [.node (some "p") none (some [.node none (some "") none []]) []]

/-- C7 scenario record: `en` populated, `fr` holding the Slate-looking blank
value. -/
def docC7 : HookDoc :=
  ⟨"a1", [("body", .dmap [("en", srcSlateC7), ("fr", frSlateC7)])]⟩

/-- C7 scenario environment. -/
def envC7 : HookEnv :=
  { headers := []
    localization := some ⟨"en", ["en", "fr"]⟩
    collection := ⟨"articles", [("body", .richText)]⟩
    doc := docC7
    store := docC7
    llm := fun _ => .ok [("body", .rstr "Bonjour")]
    updateOutcome := fun _ => .ok () }

/-! ## Lemmas: reinjection preserves shape -/

mutual
/-- Reinjection leaves the text-erased tree unchanged. -/
theorem rtReplace_erase (m : RTNode → Bool) (s : String) :
    ∀ (n : RTNode) (seen : Bool), rtErase (rtReplace m s n seen).1 = rtErase n
  | .node ty text none extra, seen => by
    simp [rtReplace, rtErase]
  | .node ty text (some cs) extra, seen => by
    simp [rtReplace, rtErase, rtReplaceL_erase m s cs _]

/-- Reinjection leaves the text-erased forest unchanged. -/
theorem rtReplaceL_erase (m : RTNode → Bool) (s : String) :
    ∀ (ns : List RTNode) (seen : Bool),
      rtEraseL (rtReplaceL m s ns seen).1 = rtEraseL ns
  | [], _ => by simp [rtReplaceL, rtEraseL]
  | n :: ns, seen => by
    simp only [rtReplaceL, rtEraseL]
    exact congrArg₂ List.cons (rtReplace_erase m s n seen) (rtReplaceL_erase m s ns _)
end

mutual
/-- Text erasure preserves node count. -/
theorem rtErase_count : ∀ n : RTNode, rtCount (rtErase n) = rtCount n
  | .node ty text none extra => by simp [rtErase, rtCount]
  | .node ty text (some cs) extra => by
    simp [rtErase, rtCount, rtEraseL_count cs]

/-- Text erasure preserves forest node count. -/
theorem rtEraseL_count : ∀ ns : List RTNode, rtCountL (rtEraseL ns) = rtCountL ns
  | [] => by simp [rtEraseL, rtCountL]
  | n :: ns => by
    simp only [rtEraseL, rtCountL]
    rw [rtErase_count n, rtEraseL_count ns]
end

/-- After a matched node has been seen, every later collected text is
blanked. -/
theorem assignFrom_true (s : String) :
    ∀ l : List (Option String), assignFrom true s l = l.map fun _ => some "" := by
  intro l
  induction l with
  | nil => rfl
  | cons x xs ih => simp [assignFrom, ih]

/-- Starting unseen, `assignFrom` is the claim's first-gets-all policy. -/
theorem assignFrom_false (s : String) :
    ∀ l : List (Option String), assignFrom false s l = assignFirstRest s l := by
  intro l
  cases l with
  | nil => rfl
  | cons x xs => simp [assignFrom, assignFirstRest, assignFrom_true]

/-- Lemma: `assignFrom` distributes over concatenation, updating the seen flag by
whether the first part collected anything. -/
theorem assignFrom_append (s : String) :
    ∀ (a b : List (Option String)) (seen : Bool),
      assignFrom seen s (a ++ b) = assignFrom seen s a ++ assignFrom (seen || !a.isEmpty) s b := by
  intro a
  induction a with
  | nil => intro b seen; simp [assignFrom]
  | cons x xs ih =>
    intro b seen
    simp [List.cons_append, assignFrom, assignFrom_true]

/-- Non-emptiness of a concatenation, in `Bool` form. -/
theorem notEmpty_append {α : Type} (a b : List α) :
    (!(a ++ b).isEmpty) = (!a.isEmpty || !b.isEmpty) := by
  cases a <;> simp

mutual
/-- What the reinjection pass does to the collected texts, for any match
predicate `m` that is insensitive to the rewrite (hypothesis `hm`): the
collected texts become `assignFrom seen s` of the original ones, and the
returned flag records whether anything was collected. -/
theorem rtReplace_texts (m : RTNode → Bool) (s : String)
    (hm : ∀ (n : RTNode) (seen : Bool), m (rtReplace m s n seen).1 = m n) :
    ∀ (n : RTNode) (seen : Bool),
      rtTexts m (rtReplace m s n seen).1 = assignFrom seen s (rtTexts m n) ∧
        (rtReplace m s n seen).2 = (seen || !(rtTexts m n).isEmpty)
  | .node ty text none extra, seen => by
    have hmn := hm (.node ty text none extra) seen
    simp only [rtReplace] at hmn ⊢
    by_cases hit : m (.node ty text none extra) = true
    · simp only [hit, if_true] at hmn ⊢
      simp only [rtTexts, hit, hmn, assignFrom, if_true]
      cases seen <;> simp [assignFrom]
    · simp only [eq_self_iff_true, Bool.not_eq_true] at hit
      simp only [hit, Bool.false_eq_true, if_false] at hmn ⊢
      simp [rtTexts, hit, hmn, assignFrom]
  | .node ty text (some cs) extra, seen => by
    have hmn := hm (.node ty text (some cs) extra) seen
    simp only [rtReplace] at hmn ⊢
    by_cases hit : m (.node ty text (some cs) extra) = true
    · have ih := rtReplaceL_texts m s hm cs true
      simp only [hit, if_true, Bool.or_true] at hmn ⊢
      simp only [rtTexts, hit, if_true]
      refine ⟨?_, ?_⟩
      · simp only [hmn, if_true, ih.1]
        cases seen <;> simp [assignFrom, assignFrom_true]
      · simp [ih.2]
    · simp only [eq_self_iff_true, Bool.not_eq_true] at hit
      have ih := rtReplaceL_texts m s hm cs seen
      simp only [hit, Bool.false_eq_true, if_false, Bool.or_false] at hmn ⊢
      simp only [rtTexts, hit, Bool.false_eq_true, if_false, List.nil_append]
      refine ⟨?_, ?_⟩
      · simp only [hmn, Bool.false_eq_true, if_false, ih.1, List.nil_append]
      · simp [ih.2]

/-- Forest version of `rtReplace_texts`. -/
theorem rtReplaceL_texts (m : RTNode → Bool) (s : String)
    (hm : ∀ (n : RTNode) (seen : Bool), m (rtReplace m s n seen).1 = m n) :
    ∀ (ns : List RTNode) (seen : Bool),
      rtTextsL m (rtReplaceL m s ns seen).1 = assignFrom seen s (rtTextsL m ns) ∧
        (rtReplaceL m s ns seen).2 = (seen || !(rtTextsL m ns).isEmpty)
  | [], seen => by simp [rtReplaceL, rtTextsL, assignFrom]
  | n :: ns, seen => by
    have ihn := rtReplace_texts m s hm n seen
    have ihns := rtReplaceL_texts m s hm ns (rtReplace m s n seen).2
    simp only [rtReplaceL, rtTextsL]
    refine ⟨?_, ?_⟩
    · rw [ihn.1, ihn.2] at *
      rw [ihns.1, ihn.2, assignFrom_append]
    · rw [ihns.2, ihn.2]
      simp [Bool.or_assoc, notEmpty_append]
end

/-- The Lexical match predicate (`type === 'text'`) is unchanged by the
rewrite, which never touches `type`. -/
theorem lexMatch_stable (s : String) :
    ∀ (n : RTNode) (seen : Bool), lexMatch (rtReplace lexMatch s n seen).1 = lexMatch n
  | .node ty text none extra, seen => by
    simp only [rtReplace]
    rfl
  | .node ty text (some cs) extra, seen => by
    simp only [rtReplace]
    rfl

/-- The Slate match predicate (`text !== undefined`) is unchanged by the
rewrite: unmatched nodes keep their absent `text`, matched nodes keep a
present one. -/
theorem slateMatch_stable (s : String) :
    ∀ (n : RTNode) (seen : Bool), slateMatch (rtReplace slateMatch s n seen).1 = slateMatch n
  | .node ty text none extra, seen => by
    by_cases hit : slateMatch (.node ty text none extra) = true
    · simp only [rtReplace, hit, if_true, slateMatch]
      simp [slateMatch] at hit
      simp [hit]
    · simp only [eq_self_iff_true, Bool.not_eq_true] at hit
      simp [slateMatch] at hit
      simp [rtReplace, slateMatch, hit]
  | .node ty text (some cs) extra, seen => by
    by_cases hit : slateMatch (.node ty text (some cs) extra) = true
    · simp only [rtReplace, hit, if_true, slateMatch]
      simp [slateMatch] at hit
      simp [hit]
    · simp only [eq_self_iff_true, Bool.not_eq_true] at hit
      simp [slateMatch] at hit
      simp [rtReplace, slateMatch, hit]

/-- Derived: reinjection preserves node count. -/
theorem rtReplaceL_count (m : RTNode → Bool) (s : String) (ns : List RTNode) (seen : Bool) :
    rtCountL (rtReplaceL m s ns seen).1 = rtCountL ns := by
  rw [← rtEraseL_count (rtReplaceL m s ns seen).1, rtReplaceL_erase, rtEraseL_count]

/-- C4. Reinjection shape preservation: for every recognized structured
document (Slate array or Lexical rooted tree) and every plain string `s`,
reinjection yields a structure with identical text-erased skeleton (hence
identical node count, nesting and non-text attributes), in which the first
collected text node carries the entire string `s` and every subsequent
collected text node's text is the empty string.  ("Leaf text node" is the
dialect's text-bearing node: `type === 'text'` for the rooted dialect, a
present `text` attribute for the array dialect, collected in document
order exactly as `findTextNodes` does.) -/
theorem c4_reinject_shape_preservation (v : FieldVal) (s : String) :
    (looksLikeSlate v = true →
      fvErase (translateSlateContent v s) = fvErase v ∧
      fvCount (translateSlateContent v s) = fvCount v ∧
      slateTexts (translateSlateContent v s) = assignFirstRest s (slateTexts v)) ∧
    (looksLikeLexical v = true →
      fvErase (translateLexicalContent v s) = fvErase v ∧
      fvCount (translateLexicalContent v s) = fvCount v ∧
      lexTexts (translateLexicalContent v s) = assignFirstRest s (lexTexts v)) := by
  constructor
  · intro hs
    cases v with
    | varr ns =>
      refine ⟨?_, ?_, ?_⟩
      · simp only [translateSlateContent, fvErase]
        rw [rtReplaceL_erase]
      · simp only [translateSlateContent, fvCount]
        rw [rtReplaceL_count]
      · simp only [translateSlateContent, slateTexts]
        rw [(rtReplaceL_texts slateMatch s (slateMatch_stable s) ns false).1,
          assignFrom_false]
    | vstr s' => simp [looksLikeSlate] at hs
    | vlex r => simp [looksLikeSlate] at hs
    | vnull => simp [looksLikeSlate] at hs
    | vother => simp [looksLikeSlate] at hs
  · intro hl
    cases v with
    | vlex r =>
      cases r with
      | node ty text ch extra =>
        cases ch with
        | none =>
          refine ⟨rfl, rfl, ?_⟩
          simp [translateLexicalContent, lexTexts, assignFirstRest]
        | some cs =>
          refine ⟨?_, ?_, ?_⟩
          · simp only [translateLexicalContent, fvErase, rtErase]
            rw [rtReplaceL_erase]
          · simp only [translateLexicalContent, fvCount, rtCount]
            rw [rtReplaceL_count]
          · simp only [translateLexicalContent, lexTexts]
            rw [(rtReplaceL_texts lexMatch s (lexMatch_stable s) cs false).1,
              assignFrom_false]
    | vstr s' => simp [looksLikeLexical] at hl
    | varr ns => simp [looksLikeLexical] at hl
    | vnull => simp [looksLikeLexical] at hl
    | vother => simp [looksLikeLexical] at hl

/-- Witness for C4 at concrete inputs: both hypotheses are discharged and the
conclusions evaluate. -/
theorem c4_reinject_shape_preservation_witness :
    (looksLikeSlate slateDocW = true ∧
      fvErase (translateSlateContent slateDocW "Bonjour le monde") = fvErase slateDocW ∧
      slateTexts (translateSlateContent slateDocW "Bonjour le monde") =
        [some "Bonjour le monde", some ""]) ∧
    (looksLikeLexical lexDocW = true ∧
      fvErase (translateLexicalContent lexDocW "Bonjour le monde") = fvErase lexDocW ∧
      lexTexts (translateLexicalContent lexDocW "Bonjour le monde") =
        [some "Bonjour le monde", some ""]) :=
  ⟨⟨rfl,
    ((c4_reinject_shape_preservation slateDocW "Bonjour le monde").1 rfl).1,
    by rw [((c4_reinject_shape_preservation slateDocW "Bonjour le monde").1 rfl).2.2]; rfl⟩,
   ⟨rfl,
    ((c4_reinject_shape_preservation lexDocW "Bonjour le monde").2 rfl).1,
    by rw [((c4_reinject_shape_preservation lexDocW "Bonjour le monde").2 rfl).2.2]; rfl⟩⟩

/-- For a node that is not a string-texted `text` node, the walk of a node
with a children array is the walk of its children. -/
theorem lexWalk_children (ty text : Option String) (cs : List RTNode)
    (e : List (String × String)) (h : ¬(ty = some "text" ∧ text.isSome)) :
    lexWalk (.node ty text (some cs) e) = lexWalkL cs := by
  rw [lexWalk.eq_def]
  split
  all_goals simp_all [RTNode.node.injEq]

/-- For a childless node that is not a string-texted `text` node, the walk
yields a newline exactly for `linebreak` nodes. -/
theorem lexWalk_leaf (ty text : Option String) (e : List (String × String))
    (h : ¬(ty = some "text" ∧ text.isSome)) :
    lexWalk (.node ty text none e) = if ty = some "linebreak" then "\n" else "" := by
  rw [lexWalk.eq_def]
  split
  all_goals simp_all [RTNode.node.injEq]

/-- The accumulator-style specification walk agrees with the source's
map-and-join walk. -/
theorem lexSpecGo_eq : ∀ (ns : List RTNode) (acc : String),
    lexSpecGo ns acc = acc ++ lexWalkL ns := by
  intro ns acc
  induction ns, acc using lexSpecGo.induct with
  | case1 acc =>
    rw [lexSpecGo]
    show acc = acc ++ lexWalkL []
    simp [lexWalkL]
  | case2 ty text ch e ns acc h ih =>
    obtain ⟨hty, htext⟩ := h
    obtain ⟨t, ht⟩ := Option.isSome_iff_exists.mp htext
    subst hty ht
    have hpos : some "text" = some "text" ∧ (some t : Option String).isSome := ⟨rfl, rfl⟩
    cases ch with
    | none =>
      rw [lexSpecGo.eq_3, if_pos hpos, ih]
      show acc ++ t ++ lexWalkL ns = acc ++ (t ++ lexWalkL ns)
      rw [String.append_assoc]
    | some cs =>
      rw [lexSpecGo.eq_2, if_pos hpos, ih]
      show acc ++ t ++ lexWalkL ns = acc ++ (t ++ lexWalkL ns)
      rw [String.append_assoc]
  | case3 ty text e ns acc h cs ihcs ih =>
    rw [lexSpecGo.eq_2, if_neg h, ih, ihcs, lexWalkL, lexWalk_children ty text cs e h]
    show acc ++ ("" ++ lexWalkL cs) ++ lexWalkL ns = acc ++ (lexWalkL cs ++ lexWalkL ns)
    rw [show ("" ++ lexWalkL cs) = lexWalkL cs by simp, String.append_assoc]
  | case4 ty text e ns acc h ih =>
    simp only [dite_eq_ite] at ih
    rw [lexSpecGo.eq_3, if_neg h, ih, lexWalkL, lexWalk_leaf ty text e h, String.append_assoc]

/-- C8. The Lexical (rooted-tree) flattening is exactly the claim's
description: a depth-first walk from the root's children in which a
string-texted `text` node contributes its text, a node with a children array
recurses (this takes precedence over the line-break rule, the clauses being
disjoint on well-formed documents), a childless `linebreak` node contributes
one newline, and siblings concatenate with no separator; then runs of three
or more newlines collapse to exactly two and the result is trimmed; any
value without `root.children` flattens to the empty string.  Stated as
equality with `lexicalToPlainSpec`, the accumulator-style rendering of the
claim. -/
theorem c8_lexical_flatten_spec (v : FieldVal) : lexicalToPlain v = lexicalToPlainSpec v := by
  cases v with
  | vlex r =>
    cases r with
    | node ty text ch extra =>
      cases ch with
      | none => rfl
      | some cs =>
        show jsTrim (collapseNewlines (lexWalkL cs)) = jsTrim (collapseNewlines (lexSpecGo cs ""))
        rw [lexSpecGo_eq]
        rw [show ("" ++ lexWalkL cs) = lexWalkL cs by simp]
  | vstr s => rfl
  | varr ns => rfl
  | vnull => rfl
  | vother => rfl

/-- C5 counterexample.  The claim says any non-string, non-recognized
rich-text value is conservatively treated as empty; but for a non-recognized
NON-EMPTY array the detector reports the field as NOT missing (the
`Array.isArray` branch tests `val.length === 0`).  So the claim's
characterisation (`claimC5RichEmpty`) disagrees with the code
(`fieldEmptyVal`) at this value. -/
theorem c5_missing_field_counterexample :
    claimC5RichEmpty c5CounterVal = true ∧
      fieldEmptyVal (some .richText) c5CounterVal = false :=
  ⟨rfl, rfl⟩

/-- C5 amended.  Missing-field detection is exactly: for plain/multiline
text, the value is absent, a blank string, or an empty array; for rich text,
the value is absent, a blank string, a recognized structured document with
blank flattened text (an empty array is recognized as Slate and flattens to
blank), or any non-string, NON-ARRAY, non-recognized value — a non-recognized
non-empty array is treated as non-empty. -/
theorem c5_missing_field_amended (kind : Option FieldKind) (val : FieldVal) :
    fieldEmptyVal kind val = amendedEmpty kind val := by
  have hrich : fieldEmptyVal (some .richText) val = amendedEmpty (some .richText) val := by
    cases val with
    | vnull => rfl
    | vstr s => simp [fieldEmptyVal, amendedEmpty, looksLikeSlate, looksLikeLexical]
    | vother => rfl
    | varr ns =>
      by_cases hs : looksLikeSlate (.varr ns) = true
      · simp [fieldEmptyVal, amendedEmpty, hs, looksLikeLexical]
      · simp only [eq_self_iff_true, Bool.not_eq_true] at hs
        cases ns with
        | nil => simp [looksLikeSlate] at hs
        | cons n ns' =>
          simp [fieldEmptyVal, amendedEmpty, hs, looksLikeLexical]
    | vlex r =>
      by_cases hl : looksLikeLexical (.vlex r) = true
      · simp [fieldEmptyVal, amendedEmpty, hl, looksLikeSlate]
      · simp only [eq_self_iff_true, Bool.not_eq_true] at hl
        simp [fieldEmptyVal, amendedEmpty, hl, looksLikeSlate]
  match kind with
  | some .richText => exact hrich
  | some .text => cases val <;> simp [fieldEmptyVal, amendedEmpty]
  | some .textarea => cases val <;> simp [fieldEmptyVal, amendedEmpty]
  | none => cases val <;> simp [fieldEmptyVal, amendedEmpty]

/-- The stable-sort argmax fold equals Mathlib's `List.argmax` (first
occurrence of the maximal score). -/
theorem foldl_argAux_some (f : String → Nat) :
    ∀ (l : List String) (a : String),
      l.foldl (List.argAux fun b c => f c < f b) (some a) =
        some (l.foldl (fun b x => if f x > f b then x else b) a) := by
  intro l
  induction l with
  | nil => intro a; rfl
  | cons x xs ih =>
    intro a
    show xs.foldl (List.argAux fun b c => f c < f b)
        (List.argAux (fun b c => f c < f b) (some a) x) = _
    have harg : List.argAux (fun b c => f c < f b) (some a) x =
        some (if f x > f a then x else a) := by
      by_cases h : f a < f x <;> simp [List.argAux, h, gt_iff_lt]
    rw [harg, ih, List.foldl_cons]

/-- Lemma: `bestLocale` is `List.argmax`. -/
theorem bestLocale_eq_argmax (f : String → Nat) (L : List String) :
    bestLocale f L = L.argmax f := by
  cases L with
  | nil => rfl
  | cons a l =>
    show some (l.foldl (fun b x => if f x > f b then x else b) a) = List.argmax f (a :: l)
    rw [List.argmax, List.foldl_cons, show List.argAux (fun b c => f c < f b) none a = some a from rfl,
      foldl_argAux_some]

/-- C3 counterexample.  All scores are 0 and the framework default locale is
`'en'`, yet the hook resolves the source locale to `'de'` (the first
configured locale): with a configured source locale of score 0 the code
takes `bestLocale || defaultLocale` without re-testing the best score, so
the claim's "whenever the best score is 0, the framework's configured
default locale is selected" fails. -/
theorem c3_source_locale_counterexample :
    hookSource cfgC3 envC3 = "de" ∧
      (∀ l ∈ (hookLz envC3).locales, hookScoreOf envC3 l = 0) ∧
      (hookLz envC3).defaultLocale = "en" ∧
      ¬ claimC3Holds cfgC3.sourceLocale (hookLz envC3).defaultLocale
          (hookLz envC3).locales (hookScoreOf envC3) (hookSource cfgC3 envC3) := by
  refine ⟨rfl, ?_, rfl, ?_⟩
  · intro l hl
    fin_cases hl <;> rfl
  · intro hclaim
    have h3 := hclaim.2.2 (fun l hl => by fin_cases hl <;> rfl)
    rw [show hookSource cfgC3 envC3 = "de" from rfl] at h3
    exact absurd h3 (by decide)

/-- C3 amended.  Source-locale selection: (1) an explicitly configured
(non-empty) source locale with score > 0 is selected; (2) when a source
locale is configured but scores 0, the first-occurring highest-score locale
is selected EVEN IF its score is 0 (the framework default is not consulted);
(3) without a configured source locale, the first-occurring highest-score
locale is selected when its score is positive, (4) and the hook's default
locale when the best score is 0.  Clause (5) characterises `bestLocale` as
the first-occurrence argmax (ties broken by first occurrence in the
configured-locales order). -/
theorem c3_source_locale_amended (cfgSrc : Option String) (defL : String)
    (scoreOf : String → Nat) (L : List String) :
    (∀ s, cfgSrc = some s → s ≠ "" → scoreOf s > 0 →
      actualSourceLocale cfgSrc defL scoreOf L = s) ∧
    (∀ s b, cfgSrc = some s → s ≠ "" → scoreOf s = 0 → bestLocale scoreOf L = some b →
      b ≠ "" → actualSourceLocale cfgSrc defL scoreOf L = b) ∧
    ((cfgSrc = none ∨ cfgSrc = some "") → ∀ b, bestLocale scoreOf L = some b →
      scoreOf b > 0 → actualSourceLocale cfgSrc defL scoreOf L = b) ∧
    ((cfgSrc = none ∨ cfgSrc = some "") → ∀ b, bestLocale scoreOf L = some b →
      scoreOf b = 0 → actualSourceLocale cfgSrc defL scoreOf L = defL) ∧
    (∀ b, bestLocale scoreOf L = some b →
      b ∈ L ∧ (∀ l ∈ L, scoreOf l ≤ scoreOf b) ∧
        (∀ l ∈ L, scoreOf l = scoreOf b → L.indexOf b ≤ L.indexOf l)) := by
  refine ⟨?_, ?_, ?_, ?_, ?_⟩
  · intro s hs hne hpos
    subst hs
    simp [actualSourceLocale, hne, hpos]
  · intro s b hs hne hzero hb hbne
    subst hs
    simp [actualSourceLocale, hne, hzero, hb, hbne]
  · intro hcfg b hb hpos
    rcases hcfg with h | h <;> subst h <;>
      simp [actualSourceLocale, hb, hpos]
  · intro hcfg b hb hzero
    rcases hcfg with h | h <;> subst h <;>
      simp [actualSourceLocale, hb, hzero]
  · intro b hb
    rw [bestLocale_eq_argmax] at hb
    have hmem : b ∈ L.argmax scoreOf := hb
    refine ⟨List.argmax_mem hmem, ?_, ?_⟩
    · intro l hl
      exact List.le_of_mem_argmax hl hmem
    · intro l hl heq
      exact List.index_of_argmax hmem hl (le_of_eq heq.symm)

/-- Association lookup across a concatenation: the left part wins. -/
theorem alook_append {α : Type} (k : String) (a b : List (String × α)) :
    alook k (a ++ b) = if (alook k a).isSome then alook k a else alook k b := by
  induction a with
  | nil => simp [alook]
  | cons kv r ih =>
    by_cases hk : kv.1 = k
    · simp [alook, hk]
    · simpa [alook, hk] using ih

/-- Inserting a fresh key appends it. -/
theorem setByPathFlat_fresh (patch : List (String × FieldVal)) (p : String) (v : FieldVal)
    (h : alook p patch = none) : setByPathFlat patch p v = patch ++ [(p, v)] := by
  simp [setByPathFlat, h]

/-- Looking up a present key in a key-value image. -/
theorem alook_map_self {α : Type} (pv : String → α) :
    ∀ (l : List String) (f : String), f ∈ l →
      alook f (l.map fun g => (g, pv g)) = some (pv f) := by
  intro l
  induction l with
  | nil => intro f hf; cases hf
  | cons g r ih =>
    intro f hf
    by_cases hg : g = f
    · subst hg; simp [alook]
    · rcases List.mem_cons.mp hf with hf1 | hf1
      · exact absurd hf1.symm hg
      · simpa [alook, hg] using ih f hf1

/-- Looking up an absent key in a key-value image. -/
theorem alook_map_not_mem {α : Type} (pv : String → α) :
    ∀ (l : List String) (k : String), k ∉ l →
      alook k (l.map fun g => (g, pv g)) = none := by
  intro l
  induction l with
  | nil => intro k _; rfl
  | cons g r ih =>
    intro k hk
    have hg : g ≠ k := fun h => hk (h ▸ List.mem_cons_self g r)
    have hr : k ∉ r := fun h => hk (List.mem_cons_of_mem g h)
    simpa [alook, hg] using ih k hr

/-- Under distinct keys that are all fresh, the patch fold is a plain
append of the per-field values. -/
theorem buildPatch_fold_eq (pv : String → FieldVal) :
    ∀ (miss : List String) (patch : List (String × FieldVal)), miss.Nodup →
      (∀ f ∈ miss, alook f patch = none) →
      miss.foldl (fun pa f => setByPathFlat pa f (pv f)) patch =
        patch ++ miss.map fun f => (f, pv f) := by
  intro miss
  induction miss with
  | nil => intro patch _ _; simp
  | cons f rest ih =>
    intro patch hnd hfresh
    have hf : alook f patch = none := hfresh f (List.mem_cons_self f rest)
    have hfresh2 : ∀ g ∈ rest, alook g (patch ++ [(f, pv f)]) = none := by
      intro g hg
      have hgf : g ≠ f := by
        intro h
        exact (List.nodup_cons.mp hnd).1 (h ▸ hg)
      rw [alook_append]
      simp [hfresh g (List.mem_cons_of_mem f hg), alook, Ne.symm hgf]
    show rest.foldl (fun pa f => setByPathFlat pa f (pv f)) (setByPathFlat patch f (pv f)) = _
    rw [setByPathFlat_fresh patch f (pv f) hf,
      ih (patch ++ [(f, pv f)]) (List.nodup_cons.mp hnd).2 hfresh2]
    simp

/-- C10 counterexample.  The claim says a requested key holding a non-string
value in the LLM result is written as the empty string; the code instead
applies `.toString()` to the value (`(result?.[f] ?? '').toString()`), so a
numeric result `7` is written as the string `"7"`, not `""`. -/
theorem c10_patch_counterexample :
    buildPatch metaC10 [] [("title", .rint 7)] ["title"] = [("title", .vstr "7")] ∧
      FieldVal.vstr "7" ≠ FieldVal.vstr "" :=
  ⟨rfl, by simp⟩

/-- C10 amended.  For every LLM result and every missing-field list (distinct
paths, as produced by filtering the schema's field list): the patch assigns
exactly the requested paths in order; a key present in the result but not
requested is never written; a requested key that is absent from the result
or null is written as the empty string (which, for rich text with a retained
source structure, `patchValue` reinjects as empty text); and a requested key
holding a number is written as its decimal string — not the empty string. -/
theorem c10_patch_keys_amended (meta : List (String × FieldKind))
    (structs : List (String × SrcStruct)) (result : List (String × ResVal))
    (miss : List String) (hnd : miss.Nodup) :
    (buildPatch meta structs result miss).map Prod.fst = miss ∧
    (∀ k, k ∉ miss → alook k (buildPatch meta structs result miss) = none) ∧
    (∀ f ∈ miss, alook f (buildPatch meta structs result miss) =
      some (patchValue meta structs result f)) ∧
    (∀ f, alook f result = none ∨ alook f result = some .rnull →
      resToString (alook f result) = "") ∧
    (∀ f n, alook f result = some (.rint n) →
      resToString (alook f result) = toString n) := by
  have hb : buildPatch meta structs result miss =
      miss.map fun f => (f, patchValue meta structs result f) := by
    have := buildPatch_fold_eq (patchValue meta structs result) miss [] hnd
      (fun f _ => rfl)
    simpa [buildPatch] using this
  refine ⟨?_, ?_, ?_, ?_, ?_⟩
  · rw [hb]
    simp [Function.comp_def]
  · intro k hk
    rw [hb]
    exact alook_map_not_mem _ miss k hk
  · intro f hf
    rw [hb]
    exact alook_map_self _ miss f hf
  · intro f hf
    rcases hf with hf | hf <;> rw [hf] <;> rfl
  · intro f n hf
    rw [hf]
    rfl

/-- Witness for C10 amended at concrete inputs. -/
theorem c10_patch_keys_amended_witness :
    (buildPatch metaC10 [] [("title", .rstr "Hi"), ("extra", .rstr "x")]
        ["title", "summary"]).map Prod.fst = ["title", "summary"] ∧
      alook "extra" (buildPatch metaC10 [] [("title", .rstr "Hi"), ("extra", .rstr "x")]
        ["title", "summary"]) = none ∧
      alook "summary" (buildPatch metaC10 [] [("title", .rstr "Hi"), ("extra", .rstr "x")]
        ["title", "summary"]) = some (.vstr "") := by
  have h := c10_patch_keys_amended metaC10 []
    [("title", .rstr "Hi"), ("extra", .rstr "x")] ["title", "summary"] (by simp)
  refine ⟨h.1, h.2.1 "extra" (by simp), ?_⟩
  rw [h.2.2.1 "summary" (by simp)]
  rfl

/-- Witness for C3 amended: auto-detection picks the strictly-highest-score
locale when no source locale is configured. -/
theorem c3_source_locale_amended_witness :
    actualSourceLocale none "en" (fun l => if l = "fr" then 2 else 0) ["de", "fr"] = "fr" :=
  (c3_source_locale_amended none "en" (fun l => if l = "fr" then 2 else 0)
    ["de", "fr"]).2.2.1 (Or.inl rfl) "fr" rfl (by decide)

/-- C1.  A change event whose request headers carry the guard marker
(`x-ai-localize: '1'`) makes the hook return the incoming document
immediately with an empty effect trace — in particular no `findByID` read,
no `update` write and no LLM call. -/
theorem c1_guard_no_effects (cfg : LocalizeConfig) (env : HookEnv)
    (h : alook HEADER_GUARD env.headers = some "1") :
    runHook cfg env = .ok ([], env.doc) := by
  simp [runHook, h]

/-- Witness for C1. -/
theorem c1_guard_no_effects_witness :
    alook HEADER_GUARD envC1.headers = some "1" ∧
      runHook {} envC1 = .ok ([], envC1.doc) :=
  ⟨rfl, c1_guard_no_effects {} envC1 rfl⟩

/-- C2 counterexample.  The record `{title: {en: "Hello", de: []}}` has, for
the single target locale `de` and the single localizable (plain-text) field
`title`, a stored value that is NON-empty per the claim's paragraph-4.4 rule
(`claimC5PlainEmpty` is false on an empty array: it is neither absent nor a
blank string) — so the claim's hypothesis holds — yet the invocation makes
an LLM call and a record-store write to `de`: the implemented plain-text
emptiness rule also counts an empty array as missing
(`Array.isArray(val) && val.length === 0`), so the claim as stated is
false. -/
theorem c2_idempotence_counterexample :
    claimC5PlainEmpty (.varr []) = false ∧
      (∀ l ∈ hookTargets {} envC2x, ∀ f ∈ hookFieldList envC2x,
        claimC5PlainEmpty (missingLocaleVal (getByPath (hookDocAll envC2x) f) l) = false) ∧
      runHook {} envC2x =
        .ok ([.llmCall "de",
              .update "articles" "r3" "de" [("title", .vstr "Hallo")] true], docC2x) := by
  refine ⟨rfl, ?_, rfl⟩
  intro l hl f hf
  rw [show hookTargets {} envC2x = ["de"] from rfl] at hl
  rw [show hookFieldList envC2x = ["title"] from rfl] at hf
  fin_cases hl
  fin_cases hf
  rfl

/-- C2 amended.  If every target locale already has every localizable field
non-empty per the IMPLEMENTED emptiness rules (paragraph 4.4 as corrected in
C5 — in particular an empty array counts as empty also for a plain-text
field), i.e. no missing fields anywhere, one invocation performs zero LLM
calls and zero record-store writes and returns the incoming document
unchanged; in particular a second invocation after a first one that fully
filled all target locales writes nothing. -/
theorem c2_idempotence (cfg : LocalizeConfig) (env : HookEnv)
    (h : ∀ l ∈ hookTargets cfg env,
      missingFields (hookDocAll env) (hookFieldList env) (hookMeta env) l = []) :
    ∃ tr, runHook cfg env = .ok (tr, env.doc) ∧ llmLocales tr = [] ∧ updLocales tr = [] := by
  have htf : hookToFill cfg env = [] := by
    unfold hookToFill
    refine List.filterMap_eq_nil_iff.mpr ?_
    intro l hl
    simp [h l hl]
  by_cases hg : alook HEADER_GUARD env.headers = some "1"
  · exact ⟨[], by simp [runHook, hg], rfl, rfl⟩
  · cases hloc : env.localization with
    | none => exact ⟨[], by simp [runHook, hg, hloc], rfl, rfl⟩
    | some lz =>
      by_cases hf : hookFieldList env = []
      · exact ⟨[], by simp [runHook, hg, hloc, hf], rfl, rfl⟩
      · by_cases hgate : gateClosed cfg env.doc = true
        · exact ⟨[], by simp [runHook, hg, hloc, hf, hgate], rfl, rfl⟩
        · by_cases hlv : hookLocalizedView env = true
          · refine ⟨[.findByID env.collection.slug env.doc.id], ?_, rfl, rfl⟩
            simp only [runHook, hg, if_false, hloc, hf, hgate, htf, hlv, if_true]
            split <;> simp_all
          · simp only [eq_self_iff_true, Bool.not_eq_true] at hlv
            refine ⟨[], ?_, rfl, rfl⟩
            simp only [runHook, hg, if_false, hloc, hf, hgate, htf, hlv,
              Bool.false_eq_true]
            split <;> simp_all

/-- Witness for C2: on a fully filled record the hook makes no LLM call and
no write. -/
theorem c2_idempotence_witness :
    (∀ l ∈ hookTargets {} envC2,
      missingFields (hookDocAll envC2) (hookFieldList envC2) (hookMeta envC2) l = []) ∧
      ∃ tr, runHook {} envC2 = .ok (tr, envC2.doc) ∧
        llmLocales tr = [] ∧ updLocales tr = [] := by
  have hfull : ∀ l ∈ hookTargets {} envC2,
      missingFields (hookDocAll envC2) (hookFieldList envC2) (hookMeta envC2) l = [] := by
    intro l hl
    rw [show hookTargets {} envC2 = ["de"] from rfl] at hl
    fin_cases hl
    rfl
  exact ⟨hfull, c2_idempotence {} envC2 hfull⟩

/-- One loop iteration calls the LLM for exactly its own locale. -/
theorem llmLocales_processPair (cfg : LocalizeConfig) (env : HookEnv)
    (p : String × List String) : llmLocales (processPair cfg env p) = [p.1] := by
  unfold processPair
  cases henv : env.llm p.1 with
  | error e => simp only [henv]; rfl
  | ok result =>
    simp only [henv]
    by_cases hp : (buildPatch (hookMeta env) (hookStructs cfg env) result p.2).isEmpty = true
    · simp only [hp, if_true]; rfl
    · simp only [hp, Bool.false_eq_true, if_false]
      by_cases hd : cfg.dryRun = true
      · simp only [hd, if_true]; rfl
      · simp only [hd, Bool.false_eq_true, if_false]
        cases hupd : env.updateOutcome p.1 <;> simp only [hupd] <;> rfl

/-- One loop iteration writes at most to its own locale. -/
theorem updLocales_processPair (cfg : LocalizeConfig) (env : HookEnv)
    (p : String × List String) : ∀ l ∈ updLocales (processPair cfg env p), l = p.1 := by
  intro l hl
  unfold processPair at hl
  cases henv : env.llm p.1 with
  | error e =>
    simp only [henv] at hl
    simp [updLocales] at hl
  | ok result =>
    simp only [henv] at hl
    by_cases hp : (buildPatch (hookMeta env) (hookStructs cfg env) result p.2).isEmpty = true
    · simp only [hp, if_true] at hl
      simp [updLocales] at hl
    · simp only [hp, Bool.false_eq_true, if_false] at hl
      by_cases hd : cfg.dryRun = true
      · simp only [hd, if_true] at hl
        simp [updLocales] at hl
      · simp only [hd, Bool.false_eq_true, if_false] at hl
        cases hupd : env.updateOutcome p.1 <;> simp only [hupd] at hl <;>
          simpa [updLocales] using hl

/-- LLM calls of the whole fill loop: one per `toFill` entry, in order. -/
theorem llmLocales_loop (cfg : LocalizeConfig) (env : HookEnv) :
    ∀ (L : List (String × List String)) (acc : List Effect),
      llmLocales (L.foldl (fun a p => a ++ processPair cfg env p) acc) =
        llmLocales acc ++ L.map Prod.fst := by
  intro L
  induction L with
  | nil => intro acc; simp
  | cons p ps ih =>
    intro acc
    rw [List.foldl_cons, ih]
    have happ : llmLocales (acc ++ processPair cfg env p) =
        llmLocales acc ++ llmLocales (processPair cfg env p) := by
      simp [llmLocales, List.filterMap_append]
    rw [happ, llmLocales_processPair cfg env p]
    simp

/-- Write locales of the whole fill loop all come from `toFill`. -/
theorem updLocales_loop (cfg : LocalizeConfig) (env : HookEnv) :
    ∀ (L : List (String × List String)) (acc : List Effect) (l : String),
      l ∈ updLocales (L.foldl (fun a p => a ++ processPair cfg env p) acc) →
        l ∈ updLocales acc ∨ l ∈ L.map Prod.fst := by
  intro L
  induction L with
  | nil => intro acc l hl; exact Or.inl hl
  | cons p ps ih =>
    intro acc l hl
    rw [List.foldl_cons] at hl
    rcases ih (acc ++ processPair cfg env p) l hl with h | h
    · rw [updLocales, List.filterMap_append] at h
      rcases List.mem_append.mp h with h1 | h1
      · exact Or.inl h1
      · exact Or.inr (by simp [updLocales_processPair cfg env p l h1])
    · exact Or.inr (by simpa using Or.inr (by simpa using h) : l ∈ (p :: ps).map Prod.fst)

/-- Membership in `toFill` implies membership in `targets`. -/
theorem toFill_fst_mem (cfg : LocalizeConfig) (env : HookEnv) :
    ∀ p ∈ hookToFill cfg env, p.1 ∈ hookTargets cfg env := by
  intro p hp
  unfold hookToFill at hp
  rcases List.mem_filterMap.mp hp with ⟨l, hl, hf⟩
  by_cases hm : missingFields (hookDocAll env) (hookFieldList env) (hookMeta env) l = []
  · simp [hm] at hf
  · simp only [hm, if_false] at hf
    cases hf
    exact hl

/-- Every invocation returns `.ok` with the incoming document, calls the LLM
for exactly the locales of `hookLlmPlan` (one call per `toFill` entry when
the loop is reached), and writes only to `toFill` locales. -/
theorem runHook_run (cfg : LocalizeConfig) (env : HookEnv) :
    ∃ tr, runHook cfg env = .ok (tr, env.doc) ∧
      llmLocales tr = hookLlmPlan cfg env ∧
      ∀ l ∈ updLocales tr, l ∈ (hookToFill cfg env).map Prod.fst := by
  by_cases hg : alook HEADER_GUARD env.headers = some "1"
  · exact ⟨[], by simp [runHook, hg], by simp [hookLlmPlan, hg, llmLocales], by simp [updLocales]⟩
  · cases hloc : env.localization with
    | none =>
      exact ⟨[], by simp [runHook, hg, hloc], by simp [hookLlmPlan, hg, hloc, llmLocales],
        by simp [updLocales]⟩
    | some lz =>
      by_cases hf : hookFieldList env = []
      · exact ⟨[], by simp [runHook, hg, hloc, hf],
          by simp [hookLlmPlan, hg, hloc, hf, llmLocales], by simp [updLocales]⟩
      · by_cases hgate : gateClosed cfg env.doc = true
        · exact ⟨[], by simp [runHook, hg, hloc, hf, hgate],
            by simp [hookLlmPlan, hg, hloc, hf, hgate, llmLocales], by simp [updLocales]⟩
        · by_cases hsv : (hookSourceValues cfg env).any (fun sv => jsTrim sv.2 ≠ "") = true
          · by_cases htf : hookToFill cfg env = []
            · refine ⟨if hookLocalizedView env then
                  [.findByID env.collection.slug env.doc.id] else [], ?_, ?_, ?_⟩
              · unfold runHook
                rw [if_neg hg]
                simp only [hloc]
                rw [if_neg hf, if_neg hgate, if_neg (not_not_intro hsv), if_pos htf]
              · have hplan : hookLlmPlan cfg env = [] := by
                  unfold hookLlmPlan
                  rw [if_neg hg]
                  simp only [hloc]
                  rw [if_neg hf, if_neg hgate, if_neg (not_not_intro hsv), htf]
                  rfl
                rw [hplan]
                split <;> rfl
              · intro l hl
                split at hl <;> simp [updLocales] at hl
            · refine ⟨(if hookLocalizedView env then
                  [.findByID env.collection.slug env.doc.id] else []) ++
                  (hookToFill cfg env).foldl (fun acc p => acc ++ processPair cfg env p) [],
                  ?_, ?_, ?_⟩
              · unfold runHook
                rw [if_neg hg]
                simp only [hloc]
                rw [if_neg hf, if_neg hgate, if_neg (not_not_intro hsv), if_neg htf]
              · have happ : llmLocales ((if hookLocalizedView env then
                    [Effect.findByID env.collection.slug env.doc.id] else []) ++
                    (hookToFill cfg env).foldl (fun acc p => acc ++ processPair cfg env p) []) =
                    llmLocales (if hookLocalizedView env then
                      [Effect.findByID env.collection.slug env.doc.id] else []) ++
                    llmLocales ((hookToFill cfg env).foldl
                      (fun acc p => acc ++ processPair cfg env p) []) := by
                  simp [llmLocales, List.filterMap_append]
                rw [happ, llmLocales_loop]
                have he : llmLocales (if hookLocalizedView env then
                    [Effect.findByID env.collection.slug env.doc.id] else []) = [] := by
                  split <;> rfl
                have hplan : hookLlmPlan cfg env = (hookToFill cfg env).map Prod.fst := by
                  unfold hookLlmPlan
                  rw [if_neg hg]
                  simp only [hloc]
                  rw [if_neg hf, if_neg hgate, if_neg (not_not_intro hsv)]
                rw [he, hplan]
                rfl
              · intro l hl
                have happ : updLocales ((if hookLocalizedView env then
                    [Effect.findByID env.collection.slug env.doc.id] else []) ++
                    (hookToFill cfg env).foldl (fun acc p => acc ++ processPair cfg env p) []) =
                    updLocales (if hookLocalizedView env then
                      [Effect.findByID env.collection.slug env.doc.id] else []) ++
                    updLocales ((hookToFill cfg env).foldl
                      (fun acc p => acc ++ processPair cfg env p) []) := by
                  simp [updLocales, List.filterMap_append]
                rw [happ] at hl
                rcases List.mem_append.mp hl with h1 | h1
                · split at h1 <;> simp [updLocales] at h1
                · rcases updLocales_loop cfg env _ [] l h1 with h2 | h2
                  · simp [updLocales] at h2
                  · exact h2
          · refine ⟨if hookLocalizedView env then
                [.findByID env.collection.slug env.doc.id] else [], ?_, ?_, ?_⟩
            · unfold runHook
              rw [if_neg hg]
              simp only [hloc]
              rw [if_neg hf, if_neg hgate, if_pos hsv]
            · have hplan : hookLlmPlan cfg env = [] := by
                unfold hookLlmPlan
                rw [if_neg hg]
                simp only [hloc]
                rw [if_neg hf, if_neg hgate, if_pos hsv]
              rw [hplan]
              split <;> rfl
            · intro l hl
              split at hl <;> simp [updLocales] at hl

/-- C7.  The `skipIfSlateTarget` option (enabled by default: the config
leaves it unset, `?? true`) is read into a local at the top of the hook and
then NEVER used: a target locale whose existing rich-text value already
looks like the Slate dialect but flattens to blank text is counted missing
and IS written.  This closed run exhibits the write: the trace contains an
`update` for locale `fr` patching the field whose existing `fr` value is
`frSlateC7` with `looksLikeSlate frSlateC7 = true`.  This contradicts the
option's own doc comment ("If true, skip writing when the target richText
looks like Slate") and the dead comment in the loop ("nothing to write
(e.g., all skipped due to Slate)"), so the code, not the claim, is wrong. -/
theorem c7_slate_target_still_written :
    ({} : LocalizeConfig).skipIfSlateTarget = none ∧
      looksLikeSlate frSlateC7 = true ∧
      missingLocaleVal (getByPath docC7 "body") "fr" = frSlateC7 ∧
      runHook {} envC7 =
        .ok ([.llmCall "fr",
              .update "articles" "a1" "fr"
                [("body", translateSlateContent srcSlateC7 "Bonjour")] true], docC7) :=
  ⟨rfl, rfl, rfl, rfl⟩

/-- C6.  The set of locales for which missing fields are computed (and which
alone may receive writes) is the configured target list when non-empty, else
all configured locales, minus the resolved source locale; and every write in
any invocation's trace goes to a locale of that set. -/
theorem c6_target_locale_set (cfg : LocalizeConfig) (env : HookEnv) (lz : LocalizationCfg)
    (hloc : env.localization = some lz) :
    hookTargets cfg env = (match cfg.targetLocales with
        | some ts => if ts ≠ [] then ts else lz.locales
        | none => lz.locales).filter (· ≠ hookSource cfg env) ∧
      ∀ tr d, runHook cfg env = .ok (tr, d) →
        ∀ l ∈ updLocales tr, l ∈ hookTargets cfg env := by
  constructor
  · unfold hookTargets hookRequested hookLz
    rw [hloc]
    rfl
  · intro tr d htr l hl
    obtain ⟨tr', h1, _, h3⟩ := runHook_run cfg env
    rw [h1] at htr
    have htr' : tr' = tr ∧ env.doc = d := by
      simpa using htr
    rcases htr' with ⟨rfl, rfl⟩
    have hm := h3 l hl
    rcases List.mem_map.mp hm with ⟨p, hp, hpl⟩
    rw [← hpl]
    exact toFill_fst_mem cfg env p hp

/-- Witness for C6, on the C7 scenario environment: the target set is
`["fr"]` and the write in the trace goes to `fr`. -/
theorem c6_target_locale_set_witness :
    hookTargets {} envC7 = ["fr"] ∧
      (∀ tr d, runHook {} envC7 = .ok (tr, d) →
        ∀ l ∈ updLocales tr, l ∈ hookTargets {} envC7) := by
  have h := c6_target_locale_set {} envC7 ⟨"en", ["en", "fr"]⟩ rfl
  exact ⟨rfl, h.2⟩

/-- C9.  For every configuration and environment and EVERY behaviour of the
two fallible collaborators (the LLM client and the record-store write), the
hook returns `.ok` with the incoming document — no exception propagates to
the host framework's mutation pipeline — and the sequence of target locales
for which an LLM call is attempted is the same across any two collaborator
behaviours: a failure in one (locale, fields) pair never prevents the
remaining locales from being attempted. -/
theorem c9_error_containment (cfg : LocalizeConfig) (env : HookEnv)
    (llm2 : String → Except String (List (String × ResVal)))
    (upd2 : String → Except String Unit) :
    ∃ tr tr2,
      runHook cfg env = .ok (tr, env.doc) ∧
        runHook cfg { env with llm := llm2, updateOutcome := upd2 } = .ok (tr2, env.doc) ∧
        llmLocales tr = llmLocales tr2 := by
  obtain ⟨tr, h1, hp1, _⟩ := runHook_run cfg env
  obtain ⟨tr2, h2, hp2, _⟩ := runHook_run cfg { env with llm := llm2, updateOutcome := upd2 }
  refine ⟨tr, tr2, h1, h2, ?_⟩
  rw [hp1, hp2]
  rfl

end AiLocalize
